import Mathlib

/-!
Shallow embedding of the csfd-ratings extension core
(`src/csfd-distribution-rating.js`): the six-slot ratings histogram, the
sequential page-traversal loop, and the localStorage TTL cache
(`read_cache` / `write_cache` / `prune_cache`), together with theorems
settling the specification's claims about them.

JavaScript numbers that can become `NaN` are modelled as `Option Int`
(`none` = NaN); JavaScript values reachable in the cache path are modelled
by the inductive `JSVal`; a thrown `TypeError` is modelled with
`Except Unit`.  External collaborators (the DOM page source, `fetch`, the
regex page parser) are modelled as an abstract environment `Env` following
the interfaces the code uses: `fetch` yields `none` exactly when the
response is not ok, the parser yields `none` when the
`<section class="others-rating">` pattern does not match.
-/

namespace Csfd

/-- JavaScript values reachable in the cache code path: `undefined`, `null`,
numbers (with `jnum none` standing for `NaN`), strings, and plain objects
as ordered key/value lists. -/
inductive JSVal where
  | undefined : JSVal
  | jnull : JSVal
  | jnum : Option Int → JSVal
  | jstr : String → JSVal
  | jobj : List (String × JSVal) → JSVal

/-- A JavaScript object as an ordered association list, as used for
`ratings_dist` and for the destructured `ratings` field. -/
abbrev JSObj := List (String × JSVal)

/-- The `localStorage` contents: an ordered key/value list.  A stored string
is kept in parsed form: `some v` when `JSON.parse` would yield `v`, `none`
when the stored string is empty or `JSON.parse` throws on it. -/
abbrev Store := List (String × Option JSVal)

/-- `localStorage[key]` read: first entry with the given key. -/
def lookupStore : Store → String → Option (Option JSVal)
  | [], _ => none
  | (k', v) :: rest, k => if k' = k then some v else lookupStore rest k

/-- `localStorage[key] = v`: replace the entry in place, or append. -/
def storeSet : Store → String → Option JSVal → Store
  | [], k, v => [(k, v)]
  | (k', v') :: rest, k, v =>
      if k' = k then (k, v) :: rest else (k', v') :: storeSet rest k v

/-- `localStorage.removeItem(key)`. -/
def storeRemove (s : Store) (k : String) : Store :=
  s.filter (fun e => e.1 != k)

/-- `MAX_RATING_PAGES_TO_FETCH` (line 58). -/
def MAX_RATING_PAGES_TO_FETCH : Nat := 40

/-- `CACHE_KEY_PREFIX` (line 59); renamed here to satisfy identifier
restrictions of this development. -/
def CACHE_KEY_TAG : String := "csfd-dist-rating-cache-"

/-- `CACHE_TIME_TO_LIVE_MINUTES = 60 * 24 * 7` (line 60). -/
def CACHE_TIME_TO_LIVE_MINUTES : Int := 60 * 24 * 7

/-- The millisecond TTL term `1000 * 60 * CACHE_TIME_TO_LIVE_MINUTES` used in
`read_cache` (line 152). -/
def TTL_MS : Int := 1000 * 60 * CACHE_TIME_TO_LIVE_MINUTES

/-- `RATINGS_SELECTORS` (line 106), as a function from slot index. -/
def SEL : Fin 6 → String
  | 0 => ".stars.stars-5"
  | 1 => ".stars.stars-4"
  | 2 => ".stars.stars-3"
  | 3 => ".stars.stars-2"
  | 4 => ".stars.stars-1"
  | 5 => ".stars.trash"

/-- `RATINGS_SELECTORS` as the literal list of the source. -/
def RATINGS_SELECTORS : List String :=
  [".stars.stars-5", ".stars.stars-4", ".stars.stars-3",
   ".stars.stars-2", ".stars.stars-1", ".stars.trash"]

/-- The cumulated ratings distribution (`ratings_dist`): one JavaScript
number per selector slot; `none` models `NaN`. -/
abbrev Hist := Fin 6 → Option Int

/-- The distribution right after `initialize()` set every slot to `0`. -/
def zerosHist : Hist := fun _ => some 0

/-- NaN-propagating addition of two JavaScript numbers. -/
def optAdd : Option Int → Option Int → Option Int
  | some x, some y => some (x + y)
  | _, _ => none

/-- NaN-propagating subtraction of two JavaScript numbers. -/
def optSub : Option Int → Option Int → Option Int
  | some x, some y => some (x - y)
  | _, _ => none

/-- The JavaScript comparison `v > 0`; false on `NaN`. -/
def optGtZero : Option Int → Bool
  | some x => decide (0 < x)
  | none => false

/-- `dist[sel] + n` for a natural element count `n`. -/
def optAddNat (a : Option Int) (n : Nat) : Option Int :=
  a.map (fun x => x + (n : Int))

/-- Property lookup among an object's own fields; `undefined` when absent. -/
def objField : List (String × JSVal) → String → JSVal
  | [], _ => .undefined
  | (k', v) :: rest, k => if k' = k then v else objField rest k

/-- JavaScript property access `base[k]` / destructuring `{k} = base`:
throws `TypeError` on `null`/`undefined`, yields `undefined` on primitives
without such a field. -/
def js_get : JSVal → String → Except Unit JSVal
  | .undefined, _ => .error ()
  | .jnull, _ => .error ()
  | .jobj fields, k => .ok (objField fields k)
  | _, _ => .ok .undefined

/-- Number digits of a character string, `foldl`-accumulated base 10. -/
def digitsToNat (ds : List Char) : Nat :=
  ds.foldl (fun a c => a * 10 + (c.toNat - 48)) 0

/-- Leading decimal-digit run of a character list, `none` when empty. -/
def parseDigits (cs : List Char) : Option Nat :=
  let ds := cs.takeWhile Char.isDigit
  if ds.isEmpty then none else some (digitsToNat ds)

/-- `parseInt` over a string: skip spaces, optional sign, leading decimal
digits; `none` models the `NaN` result. -/
def parseIntStr (s : String) : Option Int :=
  match s.toList.dropWhile (fun c => c = ' ') with
  | [] => none
  | c :: rest =>
    if c = '-' then (parseDigits rest).map (fun n => -(n : Int))
    else if c = '+' then (parseDigits rest).map (fun n => (n : Int))
    else (parseDigits (c :: rest)).map (fun n => (n : Int))

/-- `parseInt(v)`: the argument is converted to a string and its leading
integer is parsed.  For the values reachable here: an integral number is
returned unchanged, `NaN` stays `NaN`, a string is parsed, and
`undefined`/`null`/plain objects stringify to non-numeric text, hence
`NaN`. -/
def js_parseInt : JSVal → Option Int
  | .jnum v => v
  | .jstr s => parseIntStr s
  | _ => none

/-- The sanitization loop of `read_cache` (lines 158-160):
`for (let sel in destination) destination[sel] = parseInt(ratings[sel])`.
The thrown `TypeError` (`ratings` being `null`/`undefined`) does not depend
on the key, so it fires before the first assignment and the destination is
left untouched. -/
def adopt (ratings : JSVal) : JSObj → Except Unit JSObj
  | [] => .ok []
  | (k, _v) :: rest =>
    match js_get ratings k with
    | .error e => .error e
    | .ok x =>
      match adopt ratings rest with
      | .error e => .error e
      | .ok rest' => .ok ((k, .jnum (js_parseInt x)) :: rest')

/-- `read_cache(key, destination)` (lines 144-166).  Returns the `true/false`
result together with the destination object after the call.  `key = none`
models a `null`/empty cache key; a stored `none` models a string on which
`JSON.parse` throws (caught, yielding `false`). -/
def read_cache (now : Int) (store : Store) (key : Option String)
    (destination : JSObj) : Bool × JSObj :=
  match key with
  | none => (false, destination)
  | some k =>
    match lookupStore store k with
    | none => (false, destination)
    | some none => (false, destination)
    | some (some data) =>
      match js_get data "timestamp", js_get data "ratings" with
      | .error _, _ => (false, destination)
      | .ok _, .error _ => (false, destination)
      | .ok timestamp, .ok ratings =>
        let expiration := optAdd (js_parseInt timestamp) (some TTL_MS)
        if optGtZero (optSub (some now) expiration) then (false, destination)
        else
          match adopt ratings destination with
          | .error _ => (false, destination)
          | .ok dest' => (true, dest')

/-- `JSON.stringify` round trip on a ratings slot: `NaN` serializes as
`null`; finite numbers survive unchanged.  Every value written by the
program into `ratings` is a number, so slot-level rounding suffices. -/
def jsonRoundNum : JSVal → JSVal
  | .jnum none => .jnull
  | v => v

/-- `write_cache(key, ratings)` (lines 172-180): no-op on a missing key,
otherwise overwrite the entry with `{ratings, timestamp: now}` after the
`JSON.stringify`/`JSON.parse` round trip. -/
def write_cache (now : Int) (store : Store) (key : Option String)
    (ratings : JSObj) : Store :=
  match key with
  | none => store
  | some k =>
    let data : JSVal :=
      .jobj [("ratings", .jobj (ratings.map (fun e => (e.1, jsonRoundNum e.2)))),
             ("timestamp", .jnum (some now))]
    storeSet store k (some data)

/-- The `^CACHE_KEY_PREFIX` regex test of `prune_cache` (line 186): the tag
has no regex metacharacters, so the match is a plain prefix test on the
key's characters. -/
def matchesTag (k : String) : Bool :=
  CACHE_KEY_TAG.data.isPrefixOf k.data

/-- The keys snapshot taken by `prune_cache` (lines 185-192): every stored
key matching the `^CACHE_KEY_PREFIX` regex. -/
def pruneKeys (store : Store) : List String :=
  (store.map Prod.fst).filter matchesTag

/-- The `process(i)` loop of `prune_cache` (lines 193-202): walk the snapshot
from its last index down to `0`, removing every key on which
`read_cache(key, {})` reports failure.  The `setTimeout` self-scheduling
only yields cooperatively and does not change the store transitions. -/
def pruneGo (now : Int) : List String → Store → Store
  | [], s => s
  | k :: rest, s =>
    let s' := if (read_cache now s (some k) []).1 then s else storeRemove s k
    pruneGo now rest s'

/-- One complete `prune_cache()` pass (lines 184-203). -/
def prune_cache (now : Int) (store : Store) : Store :=
  pruneGo now (pruneKeys store).reverse store

/-- A ratings page as the traversal sees it: the per-selector counts of
`querySelectorAll("section.others-rating " + sel)` and the raw `href`
attribute of `a.page-next:not(.disabled)` (`none` when the element or the
attribute is absent). -/
structure Page where
  counts : Fin 6 → Nat
  next_attr : Option String

/-- `get_next_page_url` (lines 66-69): `page_next?.getAttribute("href") || null`.
The `|| null` coerces an empty `href` string to `null`. -/
def get_next_page_url (p : Page) : Option String :=
  match p.next_attr with
  | none => none
  | some s => if s = "" then none else some s

/-- `new URL(href, window.origin)` (line 76).  The constructor is total on
the inputs reachable here; a `null` href is coerced to the relative URL
string `"null"` and resolved against the origin, so the subsequent
`if (!url)` check of the source can never fire. -/
def new_URL (href : Option String) (base : String) : String :=
  base ++ (match href with | some s => s | none => "null")

/-- The external collaborators of the traversal: the initial
`document.querySelector("section.others-rating")` result, the network
(`fetch` yields `none` exactly when `!response.ok`), and the
`get_other_rating_element_from_html` regex extraction (`none` when the
`<section class="others-rating">` pattern does not match). -/
structure Env where
  origin : String
  pageInit : Option Page
  fetchHtml : String → Option String
  parseHtml : String → Option Page

/-- `fetch_next_page_html` (lines 74-86): resolve the next `href` against
the origin and fetch it; `none` on a non-ok response. -/
def fetch_next_page_html (env : Env) (p : Page) : Option String :=
  let href := get_next_page_url p
  let url := new_URL href env.origin
  env.fetchHtml url

/-- `get_other_rating_element_from_html` (lines 92-101), via the abstract
parser of the environment. -/
def get_other_rating_element_from_html (env : Env) (html : String) : Option Page :=
  env.parseHtml html

/-- `sink(source, dist)` (lines 112-117): element-wise addition of the
page's per-selector element counts into the distribution. -/
def sink (p : Page) (dist : Hist) : Hist :=
  fun j => optAddNat (dist j) (p.counts j)

/-- Why the main traversal loop (lines 283-300) ended. -/
inductive StopReason where
  | budgetDone : StopReason
  | fetchFail : StopReason
  | parseFail : StopReason
  | noSource : StopReason
deriving DecidableEq

/-- Observable outcome of one traversal: the final distribution, the
`update_ui` snapshot trace (distribution, iteration argument), the list of
pages merged by `sink` in order, and the stop reason. -/
structure RunResult where
  dist : Hist
  snaps : List (Hist × Nat)
  pages : List Page
  reason : StopReason

/-- The main traversal loop (lines 283-300) from a present page, with the
loop counter `i` as it stands at the loop head:

    while (source) {
      --i;
      sink(source, ratings_dist);
      update_ui(ratings_dist, ratings_elements, i);
      if (i == 0) break;
      const html = await fetch_next_page_html(source);
      if (!html) { update_ui(ratings_dist, ratings_elements, 0); break; }
      source = get_other_rating_element_from_html(html);
    }

For every start value `i ≥ 1` the counter decrements to exactly `0` before
the `break`, so the `Nat` counter is an exact image of the source's signed
counter; the unreachable `0` branch below corresponds to a start value the
program never uses (the loop is entered with `MAX_RATING_PAGES_TO_FETCH`). -/
def run_go (env : Env) : Nat → Page → Hist → RunResult
  | 0, p, dist =>
    let d := sink p dist
    ⟨d, [(d, 0)], [p], .budgetDone⟩
  | i' + 1, p, dist =>
    let d := sink p dist
    if i' = 0 then ⟨d, [(d, i')], [p], .budgetDone⟩
    else
      match fetch_next_page_html env p with
      | none => ⟨d, [(d, i'), (d, 0)], [p], .fetchFail⟩
      | some html =>
        match get_other_rating_element_from_html env html with
        | none => ⟨d, [(d, i')], [p], .parseFail⟩
        | some p2 =>
          let r := run_go env i' p2 d
          ⟨r.dist, (d, i') :: r.snaps, p :: r.pages, r.reason⟩

/-- The full traversal (lines 283-300): start from the document's
`section.others-rating` element; an absent element skips the loop. -/
def run (env : Env) (i : Nat) (dist : Hist) : RunResult :=
  match env.pageInit with
  | none => ⟨dist, [], [], .noSource⟩
  | some p => run_go env i p dist

/-- The click handler of `maybe_reload` (line 222):
`Object.keys(ratings).forEach(k => ratings[k] = 0)`. -/
def zeroObj (o : JSObj) : JSObj :=
  o.map (fun e => (e.1, .jnum (some 0)))

/-- `ratings_dist` as the JavaScript object with the six selector keys. -/
def histToObj (d : Hist) : JSObj :=
  [(".stars.stars-5", .jnum (d 0)), (".stars.stars-4", .jnum (d 1)),
   (".stars.stars-3", .jnum (d 2)), (".stars.stars-2", .jnum (d 3)),
   (".stars.stars-1", .jnum (d 4)), (".stars.trash", .jnum (d 5))]

/-- Read the six selector slots back out of the object form. -/
def objToHist (o : JSObj) : Hist :=
  fun j => match objField o (SEL j) with
  | .jnum v => v
  | _ => none

/-- The cache-facing main flow (lines 272-302): `initialize()` zeroes the
distribution; `read_cache` may populate it from storage; on a hit the flow
awaits the one-shot reload gate (`maybe_reload`), whose click handler
zeroes every slot before the traversal re-runs — when the gate is never
triggered the `await` never resolves and nothing further executes; on a
miss (or after the gate) the traversal runs and `write_cache` stores the
result.  `clicked` states whether the session ever triggers the gate.
The detached `setTimeout(prune_cache, 1500)` maintenance is modelled
separately by `prune_cache`.  Returns the store after the session and the
final distribution of the session. -/
def main_flow (env : Env) (store : Store) (now_read now_write : Int)
    (key : Option String) (clicked : Bool) : Store × Hist :=
  let dist0 := histToObj zerosHist
  let res := read_cache now_read store key dist0
  if res.1 then
    if clicked then
      let distR := objToHist (zeroObj res.2)
      let r := run env MAX_RATING_PAGES_TO_FETCH distR
      (write_cache now_write store key (histToObj r.dist), r.dist)
    else
      (store, objToHist res.2)
  else
    let r := run env MAX_RATING_PAGES_TO_FETCH (objToHist res.2)
    (write_cache now_write store key (histToObj r.dist), r.dist)

/-- Element-wise merge of a page's partial count vector, the commutative
and associative accumulation step of the spec (§3). -/
def mergeVec (h : Hist) (v : Fin 6 → Nat) : Hist :=
  fun j => optAddNat (h j) (v j)

/-- Modelled from the spec: the source contains no bounded-concurrency
traversal, so §4.2's `run_concurrent(initial_page, max_pages,
concurrency_width)` is modelled from the spec's words.  The finite indexed
set of page partial-count vectors is consumed in an arbitrary completion
order (`completion`, whichever in-flight fetch finishes first comes
first), each completed page is merged exactly once into the zero-started
histogram, and at most `max_pages` pages are merged.  `width` bounds the
in-flight set and affects only latency, never the merged result. -/
def run_concurrent (max_pages width : Nat)
    (completion : List (Nat × (Fin 6 → Nat))) : Hist :=
  let _ := width
  (completion.take max_pages).foldl (fun h iv => mergeVec h iv.2) zerosHist

/-- An index-encoding page reference used to drive the real sequential
loop from a plain list of count vectors: the page at index `i` links to
index `i + 1` with a reference string of length `i + 1`. -/
def mkRef (n : Nat) : String :=
  String.mk (List.replicate n 'x')

/-- Page `i` of a finite list-backed source. -/
def pageAt (pages : List (Fin 6 → Nat)) (i : Nat) : Option Page :=
  match pages[i]? with
  | none => none
  | some v =>
    some ⟨v, if i + 1 < pages.length then some (mkRef (i + 1)) else none⟩

/-- A concrete environment that serves a finite list of pages to the real
sequential loop: fetching a page reference succeeds and parsing recovers
the page by the reference's length; the bogus terminal URL `"null"`
(produced by `new URL(null, origin)`) is not served. -/
def listEnv (pages : List (Fin 6 → Nat)) : Env where
  origin := ""
  pageInit := pageAt pages 0
  fetchHtml := fun url => if url = "null" then none else some url
  parseHtml := fun s => pageAt pages s.length

/-! ### Concrete witness data -/

/-- A traversal environment whose every fetch fails: the document's page
merges and the loop then stops with a failed retrieval. -/
def envFail : Env :=
  ⟨"", some ⟨fun _ => 1, some "next"⟩, fun _ => none, fun _ => none⟩

/-- A concrete all-twos histogram. -/
def histW : Hist := fun _ => some 2

/-- A concrete namespaced cache key. -/
def keyFresh : String := CACHE_KEY_TAG ++ "aa"

/-- A store holding one freshly written entry for `keyFresh`. -/
def storeFresh : Store := write_cache 0 [] (some keyFresh) (histToObj histW)

/-- A cache entry whose timestamp field is the non-numeric string
`"soon"` and whose ratings are all ones. -/
def entryBadTs : JSVal :=
  .jobj [("ratings", .jobj (histToObj (fun _ => some 1))),
         ("timestamp", .jstr "soon")]

/-- Key of the non-numeric-timestamp entry. -/
def keyBadTs : String := CACHE_KEY_TAG ++ "ff"

/-- A store holding only the non-numeric-timestamp entry. -/
def storeBadTs : Store := [(keyBadTs, some entryBadTs)]

/-- Key of a stored string that does not parse as JSON. -/
def keyBadJson : String := CACHE_KEY_TAG ++ "gg"

/-- A store whose only entry does not parse as JSON. -/
def storeBadJson : Store := [(keyBadJson, none)]

/-- Key of a parsed entry with a valid timestamp but no ratings field. -/
def keyNoRatings : String := CACHE_KEY_TAG ++ "mm"

/-- A store whose only entry has a timestamp but no ratings field. -/
def storeNoRatings : Store :=
  [(keyNoRatings, some (.jobj [("timestamp", .jnum (some 0))]))]

/-- First page vector of the concurrent-equivalence witness. -/
def vA : Fin 6 → Nat := fun _ => 2

/-- Second page vector of the concurrent-equivalence witness. -/
def vB : Fin 6 → Nat := fun _ => 1

/-! ### Store lemmas -/

theorem lookupStore_storeSet_self (s : Store) (k : String) (v : Option JSVal) :
    lookupStore (storeSet s k v) k = some v := by
  induction s with
  | nil => simp [storeSet, lookupStore]
  | cons e rest ih =>
    by_cases h : e.1 = k
    · simp [storeSet, h, lookupStore]
    · simpa [storeSet, h, lookupStore] using ih

theorem lookupStore_storeRemove_self (s : Store) (k : String) :
    lookupStore (storeRemove s k) k = none := by
  induction s with
  | nil => rfl
  | cons e rest ih =>
    simp only [storeRemove, List.filter_cons] at ih ⊢
    by_cases h : e.1 = k
    · simp [h, ih]
    · simp [h, lookupStore, ih]

theorem lookupStore_storeRemove_ne (s : Store) (k' k : String) (h : k' ≠ k) :
    lookupStore (storeRemove s k') k = lookupStore s k := by
  induction s with
  | nil => rfl
  | cons e rest ih =>
    simp only [storeRemove, List.filter_cons] at ih ⊢
    by_cases he : e.1 = k'
    · have hek : e.1 ≠ k := by rw [he]; exact h
      simp [he, lookupStore, hek, h, ih]
    · by_cases hk : e.1 = k
      · simp [he, hk, lookupStore, Ne.symm h]
      · simp [he, hk, lookupStore, ih]

theorem mem_keys_of_lookupStore (s : Store) (k : String) (v : Option JSVal)
    (h : lookupStore s k = some v) : k ∈ s.map Prod.fst := by
  induction s with
  | nil => simp [lookupStore] at h
  | cons e rest ih =>
    by_cases he : e.1 = k
    · simp [he]
    · simp only [lookupStore, he, if_false] at h
      simp [ih h]

/-! ### read_cache lemmas -/

theorem adopt_keys (r : JSVal) (d d' : JSObj) (h : adopt r d = .ok d') :
    d'.map Prod.fst = d.map Prod.fst := by
  induction d generalizing d' with
  | nil => simp [adopt] at h; simp [← h]
  | cons e rest ih =>
    simp only [adopt] at h
    cases hg : js_get r e.1 with
    | error err => rw [hg] at h; exact absurd h (by simp)
    | ok x =>
      rw [hg] at h
      cases ha : adopt r rest with
      | error err => rw [ha] at h; exact absurd h (by simp)
      | ok rest' =>
        rw [ha] at h
        cases h
        simp [ih rest' ha]

theorem read_cache_false_snd (now : Int) (s : Store) (key : Option String)
    (d : JSObj) (h : (read_cache now s key d).1 = false) :
    (read_cache now s key d).2 = d := by
  unfold read_cache at h ⊢
  cases key with
  | none => rfl
  | some k =>
    cases hl : lookupStore s k with
    | none => simp [hl]
    | some v =>
      cases v with
      | none => simp [hl]
      | some data =>
        simp only [hl] at h ⊢
        cases ht : js_get data "timestamp" with
        | error e => simp [ht]
        | ok timestamp =>
          cases hr : js_get data "ratings" with
          | error e => simp [ht, hr]
          | ok ratings =>
            simp only [ht, hr] at h ⊢
            by_cases hexp :
                optGtZero (optSub (some now)
                  (optAdd (js_parseInt timestamp) (some TTL_MS))) = true
            · simp [hexp]
            · simp only [hexp, Bool.false_eq_true, if_false] at h ⊢
              cases ha : adopt ratings d with
              | error e => simp [ha]
              | ok d' => rw [ha] at h; simp at h

theorem read_cache_keys (now : Int) (s : Store) (key : Option String) (d : JSObj) :
    (read_cache now s key d).2.map Prod.fst = d.map Prod.fst := by
  unfold read_cache
  cases key with
  | none => rfl
  | some k =>
    cases hl : lookupStore s k with
    | none => simp [hl]
    | some v =>
      cases v with
      | none => simp [hl]
      | some data =>
        simp only [hl]
        cases ht : js_get data "timestamp" with
        | error e => simp [ht]
        | ok timestamp =>
          cases hr : js_get data "ratings" with
          | error e => simp [ht, hr]
          | ok ratings =>
            simp only [ht, hr]
            by_cases hexp :
                optGtZero (optSub (some now)
                  (optAdd (js_parseInt timestamp) (some TTL_MS))) = true
            · simp [hexp]
            · simp only [hexp, Bool.false_eq_true, if_false]
              cases ha : adopt ratings d with
              | error e => simp [ha]
              | ok d' => simp [ha, adopt_keys ratings d d' ha]

/-! ### prune_cache lemmas -/

theorem pruneGo_removes (now : Int) (k : String) :
    ∀ (keys : List String) (s : Store),
      ((k ∈ keys ∧ lookupStore s k = some none) ∨ lookupStore s k = none) →
      lookupStore (pruneGo now keys s) k = none := by
  intro keys
  induction keys with
  | nil =>
    intro s h
    rcases h with ⟨hmem, _⟩ | hnone
    · simp at hmem
    · simpa [pruneGo] using hnone
  | cons k' rest ih =>
    intro s h
    simp only [pruneGo]
    by_cases he : k' = k
    · subst he
      rcases h with ⟨_, hlook⟩ | hnone
      · have hrc : (read_cache now s (some k') []).1 = false := by
          unfold read_cache; simp [hlook]
        rw [hrc]
        simp only [Bool.false_eq_true, if_false]
        exact ih _ (Or.inr (lookupStore_storeRemove_self s k'))
      · by_cases hrc : (read_cache now s (some k') []).1 = true
        · rw [hrc]; simp only [if_true]; exact ih _ (Or.inr hnone)
        · rw [Bool.not_eq_true] at hrc
          rw [hrc]
          simp only [Bool.false_eq_true, if_false]
          exact ih _ (Or.inr (lookupStore_storeRemove_self s k'))
    · have hpres : ∀ s' : Store,
          lookupStore (if (read_cache now s' (some k') []).1 = true then s'
            else storeRemove s' k') k = lookupStore s' k := by
        intro s'
        by_cases hrc : (read_cache now s' (some k') []).1 = true
        · simp [hrc]
        · rw [Bool.not_eq_true] at hrc
          simp [hrc, lookupStore_storeRemove_ne s' k' k he]
      rcases h with ⟨hmem, hlook⟩ | hnone
      · have hmem' : k ∈ rest := by
          rcases List.mem_cons.mp hmem with h1 | h2
          · exact absurd h1.symm he
          · exact h2
        refine ih _ (Or.inl ⟨hmem', ?_⟩)
        rw [hpres s]; exact hlook
      · refine ih _ (Or.inr ?_)
        rw [hpres s]; exact hnone

theorem prune_cache_removes_unparseable (now : Int) (s : Store) (k : String)
    (htag : matchesTag k = true)
    (h : lookupStore s k = some none) :
    lookupStore (prune_cache now s) k = none := by
  have hmem : k ∈ (pruneKeys s).reverse := by
    rw [List.mem_reverse]
    exact List.mem_filter.mpr ⟨mem_keys_of_lookupStore s k none h, htag⟩
  exact pruneGo_removes now k _ s (Or.inl ⟨hmem, h⟩)

/-! ### Histogram/object round-trip lemmas -/

theorem js_parseInt_jsonRoundNum (v : Option Int) :
    js_parseInt (jsonRoundNum (.jnum v)) = v := by
  cases v <;> rfl

theorem objToHist_histToObj (d : Hist) : objToHist (histToObj d) = d := by
  funext j
  fin_cases j <;> rfl

theorem zeroObj_histToObj (d : Hist) :
    zeroObj (histToObj d) = histToObj zerosHist := rfl

theorem adopt_round_histToObj (f g : Hist) :
    adopt (.jobj ((histToObj f).map (fun e => (e.1, jsonRoundNum e.2))))
      (histToObj g) = .ok (histToObj f) := by
  simp +decide only [histToObj, List.map_cons, List.map_nil, adopt, js_get,
    objField, js_parseInt_jsonRoundNum, if_true, if_false]

/-! ### Traversal-loop equation lemmas -/

theorem run_go_zero (env : Env) (p : Page) (dist : Hist) :
    run_go env 0 p dist =
      ⟨sink p dist, [(sink p dist, 0)], [p], .budgetDone⟩ := rfl

theorem run_go_one (env : Env) (p : Page) (dist : Hist) :
    run_go env 1 p dist =
      ⟨sink p dist, [(sink p dist, 0)], [p], .budgetDone⟩ := rfl

theorem run_go_fetchFail_eq (env : Env) (i' : Nat) (p : Page) (dist : Hist)
    (hi : i' ≠ 0) (hf : fetch_next_page_html env p = none) :
    run_go env (i' + 1) p dist =
      ⟨sink p dist, [(sink p dist, i'), (sink p dist, 0)], [p], .fetchFail⟩ := by
  simp only [run_go]
  rw [if_neg hi, hf]

theorem run_go_parseFail_eq (env : Env) (i' : Nat) (p : Page) (dist : Hist)
    (html : String) (hi : i' ≠ 0) (hf : fetch_next_page_html env p = some html)
    (hp : get_other_rating_element_from_html env html = none) :
    run_go env (i' + 1) p dist =
      ⟨sink p dist, [(sink p dist, i')], [p], .parseFail⟩ := by
  simp only [run_go]
  rw [if_neg hi, hf]
  dsimp only
  rw [hp]

theorem run_go_step_eq (env : Env) (i' : Nat) (p : Page) (dist : Hist)
    (html : String) (p2 : Page) (hi : i' ≠ 0)
    (hf : fetch_next_page_html env p = some html)
    (hp : get_other_rating_element_from_html env html = some p2) :
    run_go env (i' + 1) p dist =
      ⟨(run_go env i' p2 (sink p dist)).dist,
       (sink p dist, i') :: (run_go env i' p2 (sink p dist)).snaps,
       p :: (run_go env i' p2 (sink p dist)).pages,
       (run_go env i' p2 (sink p dist)).reason⟩ := by
  simp only [run_go]
  rw [if_neg hi, hf]
  dsimp only
  rw [hp]

/-! ### Traversal-loop lemmas -/

theorem run_go_pages_length (env : Env) :
    ∀ (i : Nat) (p : Page) (dist : Hist), 1 ≤ i →
      (run_go env i p dist).pages.length ≤ i := by
  intro i
  induction i with
  | zero => intro p dist h; omega
  | succ i' ih =>
    intro p dist _
    by_cases hi : i' = 0
    · subst hi; simp [run_go_one]
    · cases hf : fetch_next_page_html env p with
      | none => simp [run_go_fetchFail_eq env i' p dist hi hf]
      | some html =>
        cases hp : get_other_rating_element_from_html env html with
        | none => simp [run_go_parseFail_eq env i' p dist html hi hf hp]
        | some p2 =>
          rw [run_go_step_eq env i' p dist html p2 hi hf hp]
          simp only [List.length_cons]
          have := ih p2 (sink p dist) (Nat.one_le_iff_ne_zero.mpr hi)
          omega

theorem run_go_dist_eq_fold (env : Env) :
    ∀ (i : Nat) (p : Page) (dist : Hist),
      (run_go env i p dist).dist =
        (run_go env i p dist).pages.foldl (fun h q => sink q h) dist := by
  intro i
  induction i with
  | zero => intro p dist; simp [run_go_zero]
  | succ i' ih =>
    intro p dist
    by_cases hi : i' = 0
    · subst hi; simp [run_go_one]
    · cases hf : fetch_next_page_html env p with
      | none => simp [run_go_fetchFail_eq env i' p dist hi hf]
      | some html =>
        cases hp : get_other_rating_element_from_html env html with
        | none => simp [run_go_parseFail_eq env i' p dist html hi hf hp]
        | some p2 =>
          rw [run_go_step_eq env i' p dist html p2 hi hf hp]
          simpa using ih p2 (sink p dist)

theorem getLast?_cons_of_getLast? {α : Type} (a b : α) (l : List α)
    (h : l.getLast? = some b) : (a :: l).getLast? = some b := by
  cases l with
  | nil => simp at h
  | cons c l' => rw [List.getLast?_cons_cons]; exact h

theorem run_go_last_snap (env : Env) :
    ∀ (i : Nat) (p : Page) (dist : Hist),
      ((run_go env i p dist).snaps.map Prod.fst).getLast? =
        some (run_go env i p dist).dist := by
  intro i
  induction i with
  | zero => intro p dist; simp [run_go_zero]
  | succ i' ih =>
    intro p dist
    by_cases hi : i' = 0
    · subst hi; simp [run_go_one]
    · cases hf : fetch_next_page_html env p with
      | none => simp [run_go_fetchFail_eq env i' p dist hi hf]
      | some html =>
        cases hp : get_other_rating_element_from_html env html with
        | none => simp [run_go_parseFail_eq env i' p dist html hi hf hp]
        | some p2 =>
          rw [run_go_step_eq env i' p dist html p2 hi hf hp]
          simp only [List.map_cons]
          exact getLast?_cons_of_getLast? _ _ _ (ih p2 (sink p dist))

theorem run_go_fail_lt (env : Env) :
    ∀ (i : Nat) (p : Page) (dist : Hist),
      (run_go env i p dist).reason = .fetchFail ∨
        (run_go env i p dist).reason = .parseFail →
      (run_go env i p dist).pages.length < i := by
  intro i
  induction i with
  | zero =>
    intro p dist h
    simp [run_go_zero] at h
  | succ i' ih =>
    intro p dist h
    by_cases hi : i' = 0
    · subst hi; simp [run_go_one] at h
    · cases hf : fetch_next_page_html env p with
      | none =>
        rw [run_go_fetchFail_eq env i' p dist hi hf]
        simp only [List.length_cons, List.length_nil]
        omega
      | some html =>
        cases hp : get_other_rating_element_from_html env html with
        | none =>
          rw [run_go_parseFail_eq env i' p dist html hi hf hp]
          simp only [List.length_cons, List.length_nil]
          omega
        | some p2 =>
          rw [run_go_step_eq env i' p dist html p2 hi hf hp] at h ⊢
          simp only [List.length_cons]
          have := ih p2 (sink p dist) (by simpa using h)
          omega

/-! ### Monotonicity and non-negativity -/

/-- Element-wise "increases or preserves" between two distributions: every
integer slot stays an integer and does not decrease. -/
def HistLE (d1 d2 : Hist) : Prop :=
  ∀ (j : Fin 6) (x : Int), d1 j = some x → ∃ y, d2 j = some y ∧ x ≤ y

/-- Every slot holds a (non-NaN) non-negative integer. -/
def NonnegH (d : Hist) : Prop :=
  ∀ j : Fin 6, ∃ n : Int, d j = some n ∧ 0 ≤ n

theorem HistLE_refl (d : Hist) : HistLE d d :=
  fun _ x h => ⟨x, h, le_refl x⟩

theorem sink_mono (p : Page) (d : Hist) : HistLE d (sink p d) := by
  intro j x hx
  refine ⟨x + (p.counts j : Int), ?_, by omega⟩
  simp [sink, optAddNat, hx]

theorem sink_nonneg (p : Page) (d : Hist) (h : NonnegH d) : NonnegH (sink p d) := by
  intro j
  obtain ⟨n, hn, hpos⟩ := h j
  exact ⟨n + (p.counts j : Int), by simp [sink, optAddNat, hn], by omega⟩

theorem run_go_chain (env : Env) :
    ∀ (i : Nat) (p : Page) (dist : Hist),
      List.Chain' HistLE (dist :: (run_go env i p dist).snaps.map Prod.fst) := by
  intro i
  induction i with
  | zero =>
    intro p dist
    simp [run_go_zero, sink_mono]
  | succ i' ih =>
    intro p dist
    by_cases hi : i' = 0
    · subst hi; simp [run_go_one, sink_mono]
    · cases hf : fetch_next_page_html env p with
      | none =>
        rw [run_go_fetchFail_eq env i' p dist hi hf]
        simp [sink_mono, HistLE_refl]
      | some html =>
        cases hp : get_other_rating_element_from_html env html with
        | none =>
          rw [run_go_parseFail_eq env i' p dist html hi hf hp]
          simp [sink_mono]
        | some p2 =>
          rw [run_go_step_eq env i' p dist html p2 hi hf hp]
          simp only [List.map_cons]
          rw [List.chain'_cons]
          exact ⟨sink_mono p dist, ih p2 (sink p dist)⟩

theorem run_go_snaps_nonneg (env : Env) :
    ∀ (i : Nat) (p : Page) (dist : Hist), NonnegH dist →
      ∀ s ∈ (run_go env i p dist).snaps, NonnegH s.1 := by
  intro i
  induction i with
  | zero =>
    intro p dist h s hs
    simp [run_go_zero] at hs
    rw [hs]
    exact sink_nonneg p dist h
  | succ i' ih =>
    intro p dist h s hs
    by_cases hi : i' = 0
    · subst hi
      simp [run_go_one] at hs
      rw [hs]
      exact sink_nonneg p dist h
    · cases hf : fetch_next_page_html env p with
      | none =>
        rw [run_go_fetchFail_eq env i' p dist hi hf] at hs
        simp only [List.mem_cons, List.not_mem_nil, or_false] at hs
        rcases hs with rfl | rfl <;> exact sink_nonneg p dist h
      | some html =>
        cases hp : get_other_rating_element_from_html env html with
        | none =>
          rw [run_go_parseFail_eq env i' p dist html hi hf hp] at hs
          simp only [List.mem_cons, List.not_mem_nil, or_false] at hs
          rw [hs]
          exact sink_nonneg p dist h
        | some p2 =>
          rw [run_go_step_eq env i' p dist html p2 hi hf hp] at hs
          simp only [List.mem_cons] at hs
          rcases hs with rfl | h2
          · exact sink_nonneg p dist h
          · exact ih p2 (sink p dist) (sink_nonneg p dist h) s h2

theorem run_go_dist_nonneg (env : Env) :
    ∀ (i : Nat) (p : Page) (dist : Hist), NonnegH dist →
      NonnegH (run_go env i p dist).dist := by
  intro i
  induction i with
  | zero => intro p dist h; simpa [run_go_zero] using sink_nonneg p dist h
  | succ i' ih =>
    intro p dist h
    by_cases hi : i' = 0
    · subst hi; simpa [run_go_one] using sink_nonneg p dist h
    · cases hf : fetch_next_page_html env p with
      | none =>
        rw [run_go_fetchFail_eq env i' p dist hi hf]
        exact sink_nonneg p dist h
      | some html =>
        cases hp : get_other_rating_element_from_html env html with
        | none =>
          rw [run_go_parseFail_eq env i' p dist html hi hf hp]
          exact sink_nonneg p dist h
        | some p2 =>
          rw [run_go_step_eq env i' p dist html p2 hi hf hp]
          exact ih p2 (sink p dist) (sink_nonneg p dist h)

/-! ### List-backed environment lemmas -/

theorem sink_eq_mergeVec (p : Page) (acc : Hist) :
    sink p acc = mergeVec acc p.counts := rfl

theorem mkRef_length (n : Nat) : (mkRef n).length = n := by
  simp [mkRef, String.length]

theorem mkRef_ne_empty (n : Nat) : mkRef (n + 1) ≠ "" := by
  intro h
  have hd := congrArg String.data h
  simp [mkRef] at hd

theorem mkRef_ne_null (n : Nat) : mkRef n ≠ "null" := by
  intro h
  have hd : List.replicate n 'x' = "null".data := congrArg String.data h
  have hdata : "null".data = ['n', 'u', 'l', 'l'] := rfl
  rw [hdata] at hd
  have hm : 'n' ∈ List.replicate n 'x' := by
    rw [hd]; exact List.mem_cons_self _ _
  have := List.eq_of_mem_replicate hm
  exact absurd this (by decide)

theorem empty_append_str (s : String) : "" ++ s = s := by
  cases s with
  | mk data => rfl

theorem fetch_listEnv_next (pages : List (Fin 6 → Nat)) (k : Nat)
    (v : Fin 6 → Nat) (hnext : k + 1 < pages.length) :
    fetch_next_page_html (listEnv pages)
      ⟨v, if k + 1 < pages.length then some (mkRef (k + 1)) else none⟩ =
      some (mkRef (k + 1)) := by
  rw [if_pos hnext]
  simp only [fetch_next_page_html, get_next_page_url, new_URL, listEnv]
  rw [if_neg (mkRef_ne_empty k)]
  rw [empty_append_str]
  rw [if_neg (mkRef_ne_null (k + 1))]

theorem fetch_listEnv_terminal (pages : List (Fin 6 → Nat)) (k : Nat)
    (v : Fin 6 → Nat) (hterm : ¬k + 1 < pages.length) :
    fetch_next_page_html (listEnv pages)
      ⟨v, if k + 1 < pages.length then some (mkRef (k + 1)) else none⟩ =
      none := by
  rw [if_neg hterm]
  simp only [fetch_next_page_html, get_next_page_url, new_URL, listEnv]
  rfl

theorem parse_listEnv_ref (pages : List (Fin 6 → Nat)) (m : Nat) :
    get_other_rating_element_from_html (listEnv pages) (mkRef m) =
      pageAt pages m := by
  simp only [get_other_rating_element_from_html, listEnv]
  rw [mkRef_length]

theorem run_go_listEnv (pages : List (Fin 6 → Nat)) :
    ∀ (i k : Nat) (v : Fin 6 → Nat) (acc : Hist),
      pages[k]? = some v → pages.length - k ≤ i →
      (run_go (listEnv pages) i
        ⟨v, if k + 1 < pages.length then some (mkRef (k + 1)) else none⟩
        acc).dist = (pages.drop k).foldl mergeVec acc := by
  intro i
  induction i with
  | zero =>
    intro k v acc hv hle
    have hk : k < pages.length := (List.getElem?_eq_some_iff.mp hv).1
    omega
  | succ i' ih =>
    intro k v acc hv hle
    have hk : k < pages.length := (List.getElem?_eq_some_iff.mp hv).1
    have hdrop : pages.drop k = v :: pages.drop (k + 1) := by
      rw [List.drop_eq_getElem_cons hk]
      obtain ⟨h, he⟩ := List.getElem?_eq_some_iff.mp hv
      rw [he]
    by_cases hi : i' = 0
    · subst hi
      rw [run_go_one]
      have hdrop2 : pages.drop (k + 1) = [] :=
        List.drop_eq_nil_of_le (by omega)
      rw [hdrop, hdrop2]
      rfl
    · by_cases hnext : k + 1 < pages.length
      · obtain ⟨v2, hv2⟩ : ∃ v2, pages[k + 1]? = some v2 := by
          rcases hw : pages[k + 1]? with _ | v2
          · rw [List.getElem?_eq_none_iff] at hw; omega
          · exact ⟨v2, rfl⟩
        have hparse : get_other_rating_element_from_html (listEnv pages)
            (mkRef (k + 1)) =
            some ⟨v2, if k + 1 + 1 < pages.length
                      then some (mkRef (k + 1 + 1)) else none⟩ := by
          rw [parse_listEnv_ref]
          simp only [pageAt, hv2]
        rw [run_go_step_eq (listEnv pages) i' _ acc (mkRef (k + 1)) _ hi
          (fetch_listEnv_next pages k v hnext) hparse]
        rw [hdrop, List.foldl_cons]
        exact ih (k + 1) v2 (mergeVec acc v) hv2 (by omega)
      · rw [run_go_fetchFail_eq (listEnv pages) i' _ acc hi
          (fetch_listEnv_terminal pages k v hnext)]
        have hdrop2 : pages.drop (k + 1) = [] :=
          List.drop_eq_nil_of_le (by omega)
        rw [hdrop, hdrop2]
        rfl

theorem run_listEnv (pages : List (Fin 6 → Nat)) (b : Nat)
    (hlen : pages.length ≤ b) :
    (run (listEnv pages) b zerosHist).dist = pages.foldl mergeVec zerosHist := by
  rcases h0 : pages[0]? with _ | v
  · have hnil : pages = [] := by
      rw [List.getElem?_eq_none_iff] at h0
      cases pages with
      | nil => rfl
      | cons a rest => simp at h0
    subst hnil
    rfl
  · have hinit : pageAt pages 0 =
        some ⟨v, if 0 + 1 < pages.length then some (mkRef (0 + 1)) else none⟩ := by
      simp only [pageAt, h0]
    have hrun : run (listEnv pages) b zerosHist =
        run_go (listEnv pages) b
          ⟨v, if 0 + 1 < pages.length then some (mkRef (0 + 1)) else none⟩
          zerosHist := by
      unfold run
      have hpi : (listEnv pages).pageInit =
          some ⟨v, if 0 + 1 < pages.length then some (mkRef (0 + 1)) else none⟩ := by
        simp only [listEnv]
        exact hinit
      rw [hpi]
    rw [hrun]
    have := run_go_listEnv pages b 0 v zerosHist h0 (by omega)
    simpa using this

/-! ### Permutation and enumeration lemmas -/

theorem mergeVec_right_comm (h : Hist) (a b : Fin 6 → Nat) :
    mergeVec (mergeVec h a) b = mergeVec (mergeVec h b) a := by
  funext j
  simp only [mergeVec, optAddNat]
  cases h j with
  | none => rfl
  | some x =>
    show some (x + (a j : Int) + (b j : Int)) = some (x + (b j : Int) + (a j : Int))
    congr 1
    omega

theorem foldl_mergeStep_perm :
    ∀ {l₁ l₂ : List (Nat × (Fin 6 → Nat))}, l₁.Perm l₂ →
      ∀ h : Hist,
        l₁.foldl (fun acc iv => mergeVec acc iv.2) h =
          l₂.foldl (fun acc iv => mergeVec acc iv.2) h := by
  intro l₁ l₂ hp
  induction hp with
  | nil => intro h; rfl
  | cons x _ ih => intro h; simp only [List.foldl_cons]; exact ih _
  | swap x y l =>
    intro h
    simp only [List.foldl_cons]
    rw [mergeVec_right_comm]
  | trans _ _ ih1 ih2 => intro h; rw [ih1, ih2]

theorem enumFrom_map_snd {α : Type} :
    ∀ (n : Nat) (l : List α), (l.enumFrom n).map Prod.snd = l
  | _, [] => rfl
  | n, a :: l => by
    simp only [List.enumFrom_cons, List.map_cons]
    rw [enumFrom_map_snd (n + 1) l]

theorem enumFrom_fst_ge {α : Type} :
    ∀ (n : Nat) (l : List α) (m : Nat),
      m ∈ (l.enumFrom n).map Prod.fst → n ≤ m
  | _, [], _, h => by simp at h
  | n, a :: l, m, h => by
    simp only [List.enumFrom_cons, List.map_cons, List.mem_cons] at h
    rcases h with rfl | h
    · exact le_refl m
    · have := enumFrom_fst_ge (n + 1) l m h
      omega

theorem enumFrom_map_fst_nodup {α : Type} :
    ∀ (n : Nat) (l : List α), ((l.enumFrom n).map Prod.fst).Nodup
  | _, [] => List.nodup_nil
  | n, a :: l => by
    simp only [List.enumFrom_cons, List.map_cons]
    refine List.nodup_cons.mpr ⟨?_, enumFrom_map_fst_nodup (n + 1) l⟩
    intro hmem
    have := enumFrom_fst_ge (n + 1) l n hmem
    omega

theorem foldl_enum_merge (pages : List (Fin 6 → Nat)) (h : Hist) :
    pages.enum.foldl (fun acc iv => mergeVec acc iv.2) h =
      pages.foldl mergeVec h := by
  conv_rhs => rw [← enumFrom_map_snd 0 pages]
  rw [List.foldl_map]
  rfl

/-! ### Cache write/read round trip -/

theorem read_cache_write_fresh (store : Store) (k : String) (tw tr : Int)
    (f g : Hist) (ht : tr - tw ≤ TTL_MS) :
    read_cache tr (write_cache tw store (some k) (histToObj f)) (some k)
      (histToObj g) = (true, histToObj f) := by
  have hlook : lookupStore (write_cache tw store (some k) (histToObj f)) k =
      some (some (.jobj
        [("ratings", .jobj ((histToObj f).map (fun e => (e.1, jsonRoundNum e.2)))),
         ("timestamp", .jnum (some tw))])) := by
    simp only [write_cache]
    exact lookupStore_storeSet_self store k _
  have ht1 : js_get (.jobj
      [("ratings", .jobj ((histToObj f).map (fun e => (e.1, jsonRoundNum e.2)))),
       ("timestamp", .jnum (some tw))]) "timestamp" = .ok (.jnum (some tw)) := rfl
  have ht2 : js_get (.jobj
      [("ratings", .jobj ((histToObj f).map (fun e => (e.1, jsonRoundNum e.2)))),
       ("timestamp", .jnum (some tw))]) "ratings" =
      .ok (.jobj ((histToObj f).map (fun e => (e.1, jsonRoundNum e.2)))) := rfl
  have hcond : optGtZero (optSub (some tr)
      (optAdd (js_parseInt (.jnum (some tw))) (some TTL_MS))) = false := by
    simp only [js_parseInt, optAdd, optSub, optGtZero, decide_eq_false_iff_not]
    omega
  simp only [read_cache, hlook, ht1, ht2, hcond, Bool.false_eq_true, if_false,
    adopt_round_histToObj]

theorem read_cache_write_stale (store : Store) (k : String) (tw tr : Int)
    (f g : Hist) (ht : TTL_MS < tr - tw) :
    (read_cache tr (write_cache tw store (some k) (histToObj f)) (some k)
      (histToObj g)).1 = false := by
  have hlook : lookupStore (write_cache tw store (some k) (histToObj f)) k =
      some (some (.jobj
        [("ratings", .jobj ((histToObj f).map (fun e => (e.1, jsonRoundNum e.2)))),
         ("timestamp", .jnum (some tw))])) := by
    simp only [write_cache]
    exact lookupStore_storeSet_self store k _
  have ht1 : js_get (.jobj
      [("ratings", .jobj ((histToObj f).map (fun e => (e.1, jsonRoundNum e.2)))),
       ("timestamp", .jnum (some tw))]) "timestamp" = .ok (.jnum (some tw)) := rfl
  have ht2 : js_get (.jobj
      [("ratings", .jobj ((histToObj f).map (fun e => (e.1, jsonRoundNum e.2)))),
       ("timestamp", .jnum (some tw))]) "ratings" =
      .ok (.jobj ((histToObj f).map (fun e => (e.1, jsonRoundNum e.2)))) := rfl
  have hcond : optGtZero (optSub (some tr)
      (optAdd (js_parseInt (.jnum (some tw))) (some TTL_MS))) = true := by
    simp only [js_parseInt, optAdd, optSub, optGtZero, decide_eq_true_eq]
    omega
  simp only [read_cache, hlook, ht1, ht2, hcond, if_true]

/-! ### Run and main-flow equations -/

theorem run_none_eq (env : Env) (i : Nat) (dist : Hist)
    (h : env.pageInit = none) :
    run env i dist = ⟨dist, [], [], .noSource⟩ := by
  unfold run
  rw [h]

theorem run_some_eq (env : Env) (i : Nat) (dist : Hist) (p : Page)
    (h : env.pageInit = some p) :
    run env i dist = run_go env i p dist := by
  unfold run
  rw [h]

theorem zeroObj_eq_of_keys (o o' : JSObj)
    (h : o.map Prod.fst = o'.map Prod.fst) : zeroObj o = zeroObj o' := by
  have e1 : ∀ t : JSObj, zeroObj t =
      (t.map Prod.fst).map (fun k => (k, .jnum (some 0))) := by
    intro t
    rw [List.map_map]
    rfl
  rw [e1, e1, h]

theorem main_flow_hit_clicked (env : Env) (store : Store) (nr nw : Int)
    (key : Option String)
    (hhit : (read_cache nr store key (histToObj zerosHist)).1 = true) :
    main_flow env store nr nw key true =
      (write_cache nw store key
        (histToObj (run env MAX_RATING_PAGES_TO_FETCH zerosHist).dist),
       (run env MAX_RATING_PAGES_TO_FETCH zerosHist).dist) := by
  have hz : objToHist
      (zeroObj (read_cache nr store key (histToObj zerosHist)).2) = zerosHist := by
    rw [zeroObj_eq_of_keys _ (histToObj zerosHist)
      (read_cache_keys nr store key (histToObj zerosHist))]
    rw [zeroObj_histToObj]
    exact objToHist_histToObj zerosHist
  simp only [main_flow, hhit, if_true, hz]

theorem main_flow_hit_unclicked (env : Env) (store : Store) (nr nw : Int)
    (key : Option String)
    (hhit : (read_cache nr store key (histToObj zerosHist)).1 = true) :
    main_flow env store nr nw key false =
      (store, objToHist (read_cache nr store key (histToObj zerosHist)).2) := by
  simp only [main_flow, hhit, if_true, Bool.false_eq_true, if_false]

theorem main_flow_miss (env : Env) (store : Store) (nr nw : Int)
    (key : Option String) (clicked : Bool)
    (hmiss : (read_cache nr store key (histToObj zerosHist)).1 = false) :
    main_flow env store nr nw key clicked =
      (write_cache nw store key
        (histToObj (run env MAX_RATING_PAGES_TO_FETCH zerosHist).dist),
       (run env MAX_RATING_PAGES_TO_FETCH zerosHist).dist) := by
  have h2 : (read_cache nr store key (histToObj zerosHist)).2 =
      histToObj zerosHist :=
    read_cache_false_snd nr store key (histToObj zerosHist) hmiss
  simp only [main_flow, hmiss, Bool.false_eq_true, if_false, h2,
    objToHist_histToObj]

/-! ## Claims -/

/-- C1: for every page source, including one with unlimited pages and no
terminal signal, the sequential traversal terminates — the loop counter
strictly decreases and the model is a total function — and merges at most
`max_pages = MAX_RATING_PAGES_TO_FETCH = 40` pages into the histogram. -/
theorem claim_c1 (env : Env) (dist : Hist) :
    (run env MAX_RATING_PAGES_TO_FETCH dist).pages.length ≤
      MAX_RATING_PAGES_TO_FETCH := by
  cases hpi : env.pageInit with
  | none =>
    rw [run_none_eq env _ dist hpi]
    simp [MAX_RATING_PAGES_TO_FETCH]
  | some p =>
    rw [run_some_eq env _ dist p hpi]
    exact run_go_pages_length env _ p dist
      (by simp [MAX_RATING_PAGES_TO_FETCH])

/-- C2: whenever a page retrieval or parse fails before the budget is
exhausted, the traversal stops at that point (strictly fewer than `i`
pages merged), the last emitted snapshot carries exactly the returned
distribution, and the result is the fold of the merged pages — the
accumulated histogram, not an error. -/
theorem claim_c2 (env : Env) (i : Nat) (dist : Hist)
    (hfail : (run env i dist).reason = .fetchFail ∨
             (run env i dist).reason = .parseFail) :
    ((run env i dist).snaps.map Prod.fst).getLast? =
      some (run env i dist).dist
    ∧ (run env i dist).dist =
        (run env i dist).pages.foldl (fun h q => sink q h) dist
    ∧ (run env i dist).pages.length < i := by
  cases hpi : env.pageInit with
  | none =>
    rw [run_none_eq env i dist hpi] at hfail
    simp at hfail
  | some p =>
    rw [run_some_eq env i dist p hpi] at hfail ⊢
    exact ⟨run_go_last_snap env i p dist, run_go_dist_eq_fold env i p dist,
      run_go_fail_lt env i p dist hfail⟩

/-- C2 witness: a concrete environment whose fetch fails after the first
page. -/
theorem claim_c2_witness :
    ((run envFail 40 zerosHist).reason = .fetchFail ∨
     (run envFail 40 zerosHist).reason = .parseFail)
    ∧ (((run envFail 40 zerosHist).snaps.map Prod.fst).getLast? =
        some (run envFail 40 zerosHist).dist
      ∧ (run envFail 40 zerosHist).dist =
          (run envFail 40 zerosHist).pages.foldl
            (fun h q => sink q h) zerosHist
      ∧ (run envFail 40 zerosHist).pages.length < 40) :=
  ⟨Or.inl rfl, claim_c2 envFail 40 zerosHist (Or.inl rfl)⟩

/-- C3 counterexample: the stored entry `storeBadTs` has a non-numeric
timestamp field (the string `"soon"`), yet `read_cache` returns `true` and
adopts its ratings — the claim says it returns absent (`false`).
`parseInt("soon")` is `NaN`, so the expiry comparison `now - expiration > 0`
is false and the entry is accepted. -/
theorem claim_c3_counterexample :
    (read_cache 0 storeBadTs (some keyBadTs) (histToObj zerosHist)).1 = true :=
  rfl

/-- C3 amended: a stored cache entry whose value is unparseable is treated
as absent on read (`false`, destination untouched) and one complete
`prune_cache` pass deletes it from storage; but an entry that parses with
a non-numeric or missing timestamp defeats the expiry check and is
adopted rather than treated as absent, so corrupt-field entries in
general are neither rejected on read nor pruned. -/
theorem claim_c3_amended (now : Int) (store : Store) (k : String)
    (dest : JSObj) (htag : matchesTag k = true)
    (hbad : lookupStore store k = some none) :
    read_cache now store (some k) dest = (false, dest)
    ∧ lookupStore (prune_cache now store) k = none := by
  constructor
  · simp only [read_cache, hbad]
  · exact prune_cache_removes_unparseable now store k htag hbad

/-- C3 witness: the unparseable entry of `storeBadJson` is read as absent
and removed by one prune pass. -/
theorem claim_c3_witness :
    (matchesTag keyBadJson = true
     ∧ lookupStore storeBadJson keyBadJson = some none)
    ∧ (read_cache 0 storeBadJson (some keyBadJson) [] = (false, [])
       ∧ lookupStore (prune_cache 0 storeBadJson) keyBadJson = none) :=
  ⟨⟨rfl, rfl⟩, claim_c3_amended 0 storeBadJson keyBadJson [] rfl rfl⟩

/-- C4: writing a six-slot histogram of non-negative integers under a
non-null key and reading it back within the TTL yields `true` and a
histogram equal to the one written; reading after the TTL has elapsed
yields absent. -/
theorem claim_c4 (store : Store) (k : String) (tw tr : Int) (f g : Hist)
    (_hpos : ∀ j : Fin 6, ∃ n : Int, f j = some n ∧ 0 ≤ n) :
    (tr - tw ≤ TTL_MS →
      read_cache tr (write_cache tw store (some k) (histToObj f)) (some k)
        (histToObj g) = (true, histToObj f))
    ∧ (TTL_MS < tr - tw →
      (read_cache tr (write_cache tw store (some k) (histToObj f)) (some k)
        (histToObj g)).1 = false) :=
  ⟨fun ht => read_cache_write_fresh store k tw tr f g ht,
   fun ht => read_cache_write_stale store k tw tr f g ht⟩

/-- C4 witness: a concrete fresh write/read round trip. -/
theorem claim_c4_witness :
    (∀ j : Fin 6, ∃ n : Int, histW j = some n ∧ 0 ≤ n)
    ∧ ((1 - 0 ≤ TTL_MS →
        read_cache 1 (write_cache 0 [] (some keyFresh) (histToObj histW))
          (some keyFresh) (histToObj zerosHist) = (true, histToObj histW))
      ∧ (TTL_MS < 1 - 0 →
        (read_cache 1 (write_cache 0 [] (some keyFresh) (histToObj histW))
          (some keyFresh) (histToObj zerosHist)).1 = false)) :=
  ⟨fun _ => ⟨2, rfl, by omega⟩,
   claim_c4 [] keyFresh 0 1 histW zerosHist (fun _ => ⟨2, rfl, by omega⟩)⟩

/-- C5: when a valid cached histogram exists (the cache read hits) and the
one-shot refresh gate is triggered, every slot is reset to zero before the
full traversal re-runs (the final result is the traversal from the
all-zero histogram) and the cache entry is overwritten with that result on
completion; if the gate is never triggered, the session ends with the
cached value and the store — in particular the entry for that key — is
left unmodified. -/
theorem claim_c5 (env : Env) (store : Store) (nr nw : Int)
    (key : Option String)
    (hhit : (read_cache nr store key (histToObj zerosHist)).1 = true) :
    main_flow env store nr nw key true =
      (write_cache nw store key
        (histToObj (run env MAX_RATING_PAGES_TO_FETCH zerosHist).dist),
       (run env MAX_RATING_PAGES_TO_FETCH zerosHist).dist)
    ∧ main_flow env store nr nw key false =
      (store, objToHist (read_cache nr store key (histToObj zerosHist)).2) :=
  ⟨main_flow_hit_clicked env store nr nw key hhit,
   main_flow_hit_unclicked env store nr nw key hhit⟩

/-- C5 witness: a concrete session over a store holding a fresh valid
entry. -/
theorem claim_c5_witness :
    (read_cache 0 storeFresh (some keyFresh) (histToObj zerosHist)).1 = true
    ∧ (main_flow envFail storeFresh 0 5 (some keyFresh) true =
        (write_cache 5 storeFresh (some keyFresh)
          (histToObj (run envFail MAX_RATING_PAGES_TO_FETCH zerosHist).dist),
         (run envFail MAX_RATING_PAGES_TO_FETCH zerosHist).dist)
      ∧ main_flow envFail storeFresh 0 5 (some keyFresh) false =
        (storeFresh,
         objToHist (read_cache 0 storeFresh (some keyFresh)
           (histToObj zerosHist)).2)) :=
  ⟨rfl, claim_c5 envFail storeFresh 0 5 (some keyFresh) rfl⟩

/-- C6: the bounded-concurrency traversal (modelled from the spec, §4.2:
the source has no concurrent variant) merges no page index twice and, for
the same finite set of pages and any completion order of the in-flight
fetches, returns a histogram equal to the sequential traversal's result. -/
theorem claim_c6 (pages : List (Fin 6 → Nat)) (width : Nat)
    (completion : List (Nat × (Fin 6 → Nat)))
    (hperm : completion.Perm pages.enum)
    (hlen : pages.length ≤ MAX_RATING_PAGES_TO_FETCH) :
    (completion.map Prod.fst).Nodup
    ∧ run_concurrent MAX_RATING_PAGES_TO_FETCH width completion =
        (run (listEnv pages) MAX_RATING_PAGES_TO_FETCH zerosHist).dist := by
  have hlen2 : completion.length = pages.length := by
    simpa using hperm.length_eq
  constructor
  · exact ((hperm.map Prod.fst).nodup_iff).mpr (enumFrom_map_fst_nodup 0 pages)
  · simp only [run_concurrent]
    rw [List.take_of_length_le (by omega)]
    rw [foldl_mergeStep_perm hperm zerosHist]
    rw [foldl_enum_merge]
    rw [run_listEnv pages MAX_RATING_PAGES_TO_FETCH hlen]

/-- C6 witness: two pages consumed in reversed completion order. -/
theorem claim_c6_witness :
    (List.Perm [(1, vB), (0, vA)] ([vA, vB].enum)
     ∧ ([vA, vB] : List (Fin 6 → Nat)).length ≤ MAX_RATING_PAGES_TO_FETCH)
    ∧ (([(1, vB), (0, vA)].map Prod.fst).Nodup
      ∧ run_concurrent MAX_RATING_PAGES_TO_FETCH 6 [(1, vB), (0, vA)] =
          (run (listEnv [vA, vB]) MAX_RATING_PAGES_TO_FETCH zerosHist).dist) :=
  ⟨⟨List.Perm.swap _ _ _, by decide⟩,
   claim_c6 [vA, vB] 6 [(1, vB), (0, vA)] (List.Perm.swap _ _ _) (by decide)⟩

/-- C7: each merge step (`sink`) only increases or preserves each slot
element-wise; starting from a histogram of non-negative integers, the
snapshot trace of one traversal is monotonically non-decreasing per
category and every snapshot slot holds a non-negative integer. -/
theorem claim_c7 (env : Env) (i : Nat) (dist : Hist) (h : NonnegH dist) :
    (∀ (p : Page) (d : Hist), HistLE d (sink p d))
    ∧ List.Chain' HistLE (dist :: (run env i dist).snaps.map Prod.fst)
    ∧ ∀ s ∈ (run env i dist).snaps, NonnegH s.1 := by
  cases hpi : env.pageInit with
  | none =>
    rw [run_none_eq env i dist hpi]
    exact ⟨fun p d => sink_mono p d, by simp, by simp⟩
  | some p =>
    rw [run_some_eq env i dist p hpi]
    exact ⟨fun q d => sink_mono q d, run_go_chain env i p dist,
      run_go_snaps_nonneg env i p dist h⟩

/-- C7 witness: the invariants at a concrete environment from the all-zero
start. -/
theorem claim_c7_witness :
    NonnegH zerosHist
    ∧ ((∀ (p : Page) (d : Hist), HistLE d (sink p d))
      ∧ List.Chain' HistLE
          (zerosHist :: (run envFail 40 zerosHist).snaps.map Prod.fst)
      ∧ ∀ s ∈ (run envFail 40 zerosHist).snaps, NonnegH s.1) :=
  ⟨fun _ => ⟨0, rfl, le_refl 0⟩,
   claim_c7 envFail 40 zerosHist (fun _ => ⟨0, rfl, le_refl 0⟩)⟩

/-- C8: with no derivable cache key (key is null), `read_cache` returns
absent without touching the destination, `write_cache` performs no storage
mutation, and the session's traversal runs unaffected: the final
distribution is exactly the plain traversal from the zeroed histogram and
the store is returned unchanged. -/
theorem claim_c8 (env : Env) (store : Store) (nr nw : Int) (clicked : Bool)
    (dest : JSObj) (r : JSObj) :
    read_cache nr store none dest = (false, dest)
    ∧ write_cache nw store none r = store
    ∧ main_flow env store nr nw none clicked =
        (store, (run env MAX_RATING_PAGES_TO_FETCH zerosHist).dist) := by
  refine ⟨rfl, rfl, ?_⟩
  have := main_flow_miss env store nr nw none clicked rfl
  rw [this]
  rfl

/-- C9: `read_cache` never throws — it is a total function in this model,
every `TypeError` being caught by the source's `try`/`catch` — and
whenever it returns `false` the destination object is left completely
unmodified. -/
theorem claim_c9 (now : Int) (store : Store) (key : Option String)
    (dest : JSObj) (h : (read_cache now store key dest).1 = false) :
    (read_cache now store key dest).2 = dest :=
  read_cache_false_snd now store key dest h

/-- C9 witness: an entry with a valid timestamp but no ratings field makes
the sanitization loop throw; the call still returns `false` with the
destination untouched. -/
theorem claim_c9_witness :
    (read_cache 0 storeNoRatings (some keyNoRatings)
      (histToObj zerosHist)).1 = false
    ∧ (read_cache 0 storeNoRatings (some keyNoRatings)
        (histToObj zerosHist)).2 = histToObj zerosHist :=
  ⟨rfl, claim_c9 0 storeNoRatings (some keyNoRatings) (histToObj zerosHist) rfl⟩

/-- C10: after a cache-miss session whose traversal stops early on a
retrieval or parse failure, the partial histogram is still written to the
cache under the session's key, and a read within the TTL window serves
exactly that partial value — the same write path as a fully completed
traversal. -/
theorem claim_c10 (env : Env) (store : Store) (nr nw tr : Int) (k : String)
    (clicked : Bool) (d : Hist)
    (hmiss : (read_cache nr store (some k) (histToObj zerosHist)).1 = false)
    (_hfail : (run env MAX_RATING_PAGES_TO_FETCH zerosHist).reason = .fetchFail ∨
             (run env MAX_RATING_PAGES_TO_FETCH zerosHist).reason = .parseFail)
    (htr : tr - nw ≤ TTL_MS) :
    main_flow env store nr nw (some k) clicked =
      (write_cache nw store (some k)
        (histToObj (run env MAX_RATING_PAGES_TO_FETCH zerosHist).dist),
       (run env MAX_RATING_PAGES_TO_FETCH zerosHist).dist)
    ∧ read_cache tr (main_flow env store nr nw (some k) clicked).1 (some k)
        (histToObj d) =
        (true, histToObj (run env MAX_RATING_PAGES_TO_FETCH zerosHist).dist) := by
  have hm := main_flow_miss env store nr nw (some k) clicked hmiss
  refine ⟨hm, ?_⟩
  rw [hm]
  exact read_cache_write_fresh store k nw tr
    (run env MAX_RATING_PAGES_TO_FETCH zerosHist).dist d htr

/-- C10 witness: an empty store, a failing environment, and a read one
millisecond after the write. -/
theorem claim_c10_witness :
    ((read_cache 0 [] (some keyFresh) (histToObj zerosHist)).1 = false
     ∧ ((run envFail MAX_RATING_PAGES_TO_FETCH zerosHist).reason = .fetchFail ∨
        (run envFail MAX_RATING_PAGES_TO_FETCH zerosHist).reason = .parseFail)
     ∧ 1 - 0 ≤ TTL_MS)
    ∧ (main_flow envFail [] 0 0 (some keyFresh) false =
        (write_cache 0 [] (some keyFresh)
          (histToObj (run envFail MAX_RATING_PAGES_TO_FETCH zerosHist).dist),
         (run envFail MAX_RATING_PAGES_TO_FETCH zerosHist).dist)
      ∧ read_cache 1 (main_flow envFail [] 0 0 (some keyFresh) false).1
          (some keyFresh) (histToObj zerosHist) =
          (true, histToObj (run envFail MAX_RATING_PAGES_TO_FETCH zerosHist).dist)) :=
  ⟨⟨rfl, Or.inl rfl, by simp [TTL_MS, CACHE_TIME_TO_LIVE_MINUTES]⟩,
   claim_c10 envFail [] 0 0 1 keyFresh false zerosHist rfl (Or.inl rfl)
     (by simp [TTL_MS, CACHE_TIME_TO_LIVE_MINUTES])⟩

end Csfd
